import Mathlib

/-!
Verification development for the HuBERT + DNN speech-emotion pipeline
(`emotion_detector.py` and `main.py`).

The numeric pipeline is embedded shallowly over the real numbers:

* a waveform is a list of samples; an embedding sequence is the (T, D)
  array `sequence_embeddings` of `preprocesar_audio`, modelled as a list of
  T rows of length D;
* the external collaborators (librosa decoding, the HuBERT processor and
  model, the trained Keras classifier) are opaque fallible functions, held
  in an environment / detector record, each returning `Except` to model a
  Python call that may raise;
* `predecir_emocion` is the try/except wrapper around the staged pipeline,
  returning its result together with the (unchanged) detector state, which
  models a Python method call on `self`.
-/

noncomputable section

/-- A mono 16 kHz waveform: the sequence of samples, modelled as reals. -/
abbrev Waveform := List ℝ

/-- The array `sequence_embeddings` of shape (T, D): one row per time step. -/
abbrev EmbeddingSeq := List (List ℝ)

/-- Column `j` of the (T, D) embedding array: dimension `j` across all
T time steps (the axis-0 slice that np.mean/np.std/np.min/np.max reduce). -/
def column (E : EmbeddingSeq) (j : Nat) : List ℝ :=
  E.map (fun r => r.getD j 0)

/-- The embedding dimension D of the array, read off its first row. -/
def dimOf (E : EmbeddingSeq) : Nat := (E.headD []).length

/-- np.mean along axis 0: the column sum divided by the number T of rows. -/
def colMean (E : EmbeddingSeq) (j : Nat) : ℝ :=
  (column E j).sum / (E.length : ℝ)

/-- Population variance of column `j` (np.std semantics, ddof = 0:
divide by T, not T - 1). -/
def colVar (E : EmbeddingSeq) (j : Nat) : ℝ :=
  ((column E j).map (fun x => (x - colMean E j) ^ 2)).sum / (E.length : ℝ)

/-- np.min of a nonempty list, as a fold; 0 for the empty list (that case
raises in numpy and is excluded before this function is reached). -/
def listMin : List ℝ → ℝ
  | [] => 0
  | x :: xs => xs.foldl min x

/-- np.max of a nonempty list, as a fold. -/
def listMax : List ℝ → ℝ
  | [] => 0
  | x :: xs => xs.foldl max x

/-- The per-dimension means `mean_features = np.mean(sequence_embeddings, axis=0)`. -/
def mean_features (E : EmbeddingSeq) : List ℝ :=
  (List.range (dimOf E)).map (fun j => colMean E j)

/-- The per-dimension standard deviations
`std_features = np.std(sequence_embeddings, axis=0)` (population variance). -/
def std_features (E : EmbeddingSeq) : List ℝ :=
  (List.range (dimOf E)).map (fun j => Real.sqrt (colVar E j))

/-- The per-dimension minima `min_features = np.min(sequence_embeddings, axis=0)`. -/
def min_features (E : EmbeddingSeq) : List ℝ :=
  (List.range (dimOf E)).map (fun j => listMin (column E j))

/-- The per-dimension maxima `max_features = np.max(sequence_embeddings, axis=0)`. -/
def max_features (E : EmbeddingSeq) : List ℝ :=
  (List.range (dimOf E)).map (fun j => listMax (column E j))

/-- The final concatenation of `preprocesar_audio`:
`np.concatenate([mean_features, std_features, min_features, max_features])`. -/
def aggregateStats (E : EmbeddingSeq) : List ℝ :=
  mean_features E ++ std_features E ++ min_features E ++ max_features E

/-! ### The detector state and its external collaborators -/

/-- The components `_load_components` stores on `self`. The heavy binary
artifacts (HuBERT processor and model, the trained Keras DNN) are opaque
fallible functions: calling one either returns a value or raises, which the
embedding renders as `Except String`. The scaler is kept as its fitted
per-dimension mean and scale arrays, and the label map as the association
list `id_to_label` built by inverting the JSON `label_to_id` mapping. -/
structure Detector where
  processor : Waveform → Except String Waveform
  model_hubert : Waveform → Except String EmbeddingSeq
  modelo_cargado : List ℝ → Except String (List ℝ)
  scaler_mean : List ℝ
  scaler_scale : List ℝ
  id_to_label : List (Nat × String)

/-- The audio-decoding collaborator: `librosa.load(path, sr=16000)`, which
either yields a mono 16 kHz waveform or raises a decode error. -/
structure AudioEnv where
  loadAudio : String → Except String Waveform

/-- The tuple `predecir_emocion` returns:
(emotion label, confidence, id_to_label map, probability distribution). -/
abbrev PredResult := String × ℝ × List (Nat × String) × List ℝ

/-- The method `preprocesar_audio`: decode the file, run the HuBERT
processor and model to get the (T, D) embedding array, then aggregate the
four per-dimension statistics. A zero-size embedding array makes np.min
raise, so the T = 0 case is an error here, as in numpy. -/
def preprocesar_audio (env : AudioEnv) (d : Detector) (audio_path : String) :
    Except String (List ℝ) :=
  match env.loadAudio audio_path with
  | Except.error e => Except.error e
  | Except.ok waveform =>
    match d.processor waveform with
    | Except.error e => Except.error e
    | Except.ok input_values =>
      match d.model_hubert input_values with
      | Except.error e => Except.error e
      | Except.ok sequence_embeddings =>
        match sequence_embeddings with
        | [] => Except.error "zero-size array to reduction operation minimum which has no identity"
        | r :: rs => Except.ok (aggregateStats (r :: rs))

/-- Modelled from the spec: the loaded StandardScaler's transform applies
the fixed affine map `(x - mean_i) / scale_i` elementwise with the
parameters fitted at training time, and a dimension mismatch between the
input vector and the stored parameters raises (artifact version skew).
The sklearn implementation itself is an external binary artifact. -/
def scalerTransform (d : Detector) (v : List ℝ) : Except String (List ℝ) :=
  if v.length = d.scaler_mean.length then
    Except.ok ((v.zip (d.scaler_mean.zip d.scaler_scale)).map
      (fun p => (p.1 - p.2.1) / p.2.2))
  else
    Except.error "X has a different number of features than StandardScaler expects"

/-- The scan np.argmax performs: walk the list keeping the first index whose
value is strictly greater than the best seen so far, so the first occurrence
of the maximum wins. `i` is the position of the list head, `best` and `bv`
the current best index and value. -/
def argmaxAux {α : Type} [LinearOrder α] : List α → Nat → Nat → α → Nat
  | [], _, best, _ => best
  | x :: xs, i, best, bv =>
    if bv < x then argmaxAux xs (i + 1) i x else argmaxAux xs (i + 1) best bv

/-- np.argmax: the first index achieving the maximum; raises on an empty
array. -/
def npArgmax {α : Type} [LinearOrder α] : List α → Except String Nat
  | [] => Except.error "attempt to get argmax of an empty sequence"
  | x :: xs => Except.ok (argmaxAux xs 1 0 x)

/-- Steps 1 to 3 of `predecir_emocion`: raw feature vector, scaling, and the
DNN forward pass yielding the probability distribution `predicciones`. -/
def classifyStage (env : AudioEnv) (d : Detector) (audio_path : String) :
    Except String (List ℝ) :=
  match preprocesar_audio env d audio_path with
  | Except.error e => Except.error e
  | Except.ok vector_crudo =>
    match scalerTransform d vector_crudo with
    | Except.error e => Except.error e
    | Except.ok vector_escalado => d.modelo_cargado vector_escalado

/-- The body of the `try` block of `predecir_emocion`: classify, take the
argmax, resolve the label through `id_to_label` (a plain dict lookup that
raises KeyError when the index is absent), and read the confidence off the
distribution at the winning index. -/
def pipeline (env : AudioEnv) (d : Detector) (audio_path : String) :
    Except String PredResult :=
  match classifyStage env d audio_path with
  | Except.error e => Except.error e
  | Except.ok predicciones =>
    match npArgmax predicciones with
    | Except.error e => Except.error e
    | Except.ok clase_predicha_id =>
      match d.id_to_label.lookup clase_predicha_id with
      | none => Except.error (toString clase_predicha_id)
      | some emocion_predicha =>
        Except.ok (emocion_predicha, predicciones.getD clase_predicha_id 0,
          d.id_to_label, predicciones)

/-- The method `predecir_emocion`: the try/except wrapper. On any failure of
the staged pipeline it returns the in-band error tuple
`(f"ERROR: {e}", 0, {}, [])` instead of raising. The second component of the
result is the detector state after the call; the method assigns to no field
of `self`, so it is the state the call was made in. -/
def predecir_emocion (env : AudioEnv) (d : Detector) (audio_path : String) :
    PredResult × Detector :=
  (match pipeline env d audio_path with
   | Except.ok r => r
   | Except.error e => ("ERROR: " ++ e, 0, [], []), d)

/-- A scaler call through the detector state: the call returns its value and
the detector state after the call, which `transform` does not change. -/
def scaler_transform_call (d : Detector) (v : List ℝ) :
    Except String (List ℝ) × Detector :=
  (scalerTransform d v, d)

/-! ### Loading (`_load_components`) -/

/-- What the environment offers each sub-load of `_load_components`: the
pretrained processor and HuBERT model, the Keras model file, the serialized
scaler (its fitted mean and scale arrays), and the JSON label-to-id map. -/
structure LoadEnv where
  load_processor : Except String (Waveform → Except String Waveform)
  load_hubert : Except String (Waveform → Except String EmbeddingSeq)
  load_modelo : Except String (List ℝ → Except String (List ℝ))
  load_scaler : Except String (List ℝ × List ℝ)
  load_label_json : Except String (List (String × Nat))

/-- One step of the Python dict comprehension: assign `m[k] = v`, replacing
the value in place when the key is present and appending otherwise, which is
insertion-order semantics of a Python dict. -/
def dictInsert (m : List (Nat × String)) (k : Nat) (v : String) :
    List (Nat × String) :=
  if m.any (fun p => p.1 = k) then
    m.map (fun p => if p.1 = k then (k, v) else p)
  else m ++ [(k, v)]

/-- The inversion `{int(v): k for k, v in label_to_id.items()}`. -/
def invertLabelMap (label_to_id : List (String × Nat)) : List (Nat × String) :=
  label_to_id.foldl (fun m p => dictInsert m p.2 p.1) []

/-- The constructor path `_load_components`: load the processor, the HuBERT
model, the DNN, the scaler and the label JSON in that order; any sub-load
failure aborts the whole load. The label map is only inverted — nothing
checks it against the classifier's output indices. -/
def load_components (le : LoadEnv) : Except String Detector :=
  match le.load_processor with
  | Except.error e => Except.error e
  | Except.ok processor =>
    match le.load_hubert with
    | Except.error e => Except.error e
    | Except.ok model_hubert =>
      match le.load_modelo with
      | Except.error e => Except.error e
      | Except.ok modelo_cargado =>
        match le.load_scaler with
        | Except.error e => Except.error e
        | Except.ok scaler =>
          match le.load_label_json with
          | Except.error e => Except.error e
          | Except.ok label_to_id =>
            Except.ok
              { processor := processor
                model_hubert := model_hubert
                modelo_cargado := modelo_cargado
                scaler_mean := scaler.1
                scaler_scale := scaler.2
                id_to_label := invertLabelMap label_to_id }

/-! ### The live-capture flow of `main.py` -/

/-- The RMS energy computed in `toggle_recording`:
`np.sqrt(np.mean(grabacion ** 2))`. -/
def rms (grabacion : List ℝ) : ℝ :=
  Real.sqrt ((grabacion.map (fun x => x ^ 2)).sum / (grabacion.length : ℝ))

/-- The silence threshold `UMBRAL_SILENCIO = 0.03` of `main.py`. -/
def UMBRAL_SILENCIO : ℝ := 3 / 100

/-- The silence gate decision of `toggle_recording`: the captured signal is
treated as silence exactly when `rms < UMBRAL_SILENCIO` (strict). -/
def isSilent (grabacion : List ℝ) : Prop :=
  rms grabacion < UMBRAL_SILENCIO

/-- The fixed temporary file name of the live-capture path. -/
def tempVivoPath : String := "temp_vivo.wav"

/-- The observable steps of the capture flow, in program order: writing and
removing the temporary WAV, invoking `predecir_emocion`, and the two display
outcomes (the silence sentinel with its RMS value, or a prediction result). -/
inductive UiEvent where
  | writeTemp : UiEvent
  | removeTemp : UiEvent
  | invokeInference : UiEvent
  | displaySilence : ℝ → UiEvent
  | displayResult : PredResult → UiEvent

/-- The events of `analyze_audio_file`: run the inference engine, then
remove the file when it was a temporary one, then display the result. -/
def analyze_audio_file (env : AudioEnv) (d : Detector) (file_path : String)
    (is_temp : Bool) : List UiEvent :=
  UiEvent.invokeInference ::
    ((if is_temp then [UiEvent.removeTemp] else []) ++
      [UiEvent.displayResult (predecir_emocion env d file_path).1])

/-- The branching of `toggle_recording` after the capture, as a step
relation on the emitted event trace: the temporary WAV is always written;
when the gate fires the file is removed and the silence sentinel displayed,
otherwise `analyze_audio_file` runs on the temporary file. -/
inductive ToggleRun (env : AudioEnv) (d : Detector) (grabacion : List ℝ) :
    List UiEvent → Prop
  | silent :
      isSilent grabacion →
      ToggleRun env d grabacion
        [UiEvent.writeTemp, UiEvent.removeTemp,
          UiEvent.displaySilence (rms grabacion)]
  | voiced :
      ¬ isSilent grabacion →
      ToggleRun env d grabacion
        (UiEvent.writeTemp :: analyze_audio_file env d tempVivoPath true)

/-- Whether the temporary WAV file exists once a trace has run. -/
def tempExistsAfter (tr : List UiEvent) : Bool :=
  tr.foldl
    (fun b e =>
      match e with
      | UiEvent.writeTemp => true
      | UiEvent.removeTemp => false
      | _ => b)
    false

/-! ### Concrete fixtures used by the witnesses -/

/-- An audio environment whose decoder succeeds with a one-sample waveform. -/
def envOk : AudioEnv := ⟨fun _ => Except.ok [0]⟩

/-- An audio environment whose decoder always raises. -/
def envFail : AudioEnv := ⟨fun _ => Except.error "could not decode audio"⟩

/-- A detector whose HuBERT model yields the 2-step, 1-dimensional
embedding sequence [[1], [3]]. -/
def detTwoSteps : Detector :=
  { processor := fun w => Except.ok w
    model_hubert := fun _ => Except.ok [[1], [3]]
    modelo_cargado := fun _ => Except.ok [1]
    scaler_mean := [0, 0, 0, 0]
    scaler_scale := [1, 1, 1, 1]
    id_to_label := [(0, "Angry")] }

/-- A detector whose classifier returns the tied distribution
[0.5, 0.5, 0.0] of the specification's argmax example. -/
def detTie : Detector :=
  { processor := fun w => Except.ok w
    model_hubert := fun _ => Except.ok [[0]]
    modelo_cargado := fun _ => Except.ok [1 / 2, 1 / 2, 0]
    scaler_mean := [0, 0, 0, 0]
    scaler_scale := [1, 1, 1, 1]
    id_to_label := [(0, "Angry"), (1, "Sad"), (2, "Happy")] }

/-- A load environment whose label JSON is empty while its classifier still
produces a one-class distribution: index 0 has no label entry. -/
def leNoLabels : LoadEnv :=
  { load_processor := Except.ok (fun w => Except.ok w)
    load_hubert := Except.ok (fun _ => Except.ok [[0]])
    load_modelo := Except.ok (fun _ => Except.ok [1])
    load_scaler := Except.ok ([0, 0, 0, 0], [1, 1, 1, 1])
    load_label_json := Except.ok [] }

/-- The detector `load_components leNoLabels` yields: its label map is
empty. -/
def detNoLabels : Detector :=
  { processor := fun w => Except.ok w
    model_hubert := fun _ => Except.ok [[0]]
    modelo_cargado := fun _ => Except.ok [1]
    scaler_mean := [0, 0, 0, 0]
    scaler_scale := [1, 1, 1, 1]
    id_to_label := [] }

/-! ### Small list lemmas used to read entries off the concatenation -/

theorem getD_range_map (f : Nat → ℝ) (D j : Nat) (h : j < D) :
    ((List.range D).map f).getD j 0 = f j := by
  simp [List.getD_eq_getElem?_getD, List.getElem?_map, List.getElem?_range, h]

theorem foldl_min_mem (x : ℝ) (xs : List ℝ) : xs.foldl min x ∈ x :: xs := by
  induction xs generalizing x with
  | nil => simp
  | cons y ys ih =>
    rw [List.foldl_cons]
    simp only [List.mem_cons]
    rcases List.mem_cons.1 (ih (min x y)) with h | h
    · rcases min_choice x y with hm | hm
      · exact Or.inl (h.trans hm)
      · exact Or.inr (Or.inl (h.trans hm))
    · exact Or.inr (Or.inr h)

theorem foldl_min_le (x : ℝ) (xs : List ℝ) : ∀ y ∈ x :: xs, xs.foldl min x ≤ y := by
  induction xs generalizing x with
  | nil => simp
  | cons z zs ih =>
    intro y hy
    rw [List.foldl_cons]
    have hbase : zs.foldl min (min x z) ≤ min x z :=
      ih (min x z) (min x z) (List.mem_cons_self _ _)
    simp only [List.mem_cons] at hy
    rcases hy with heq | heq | hmem
    · rw [heq]; exact le_trans hbase (min_le_left x z)
    · rw [heq]; exact le_trans hbase (min_le_right x z)
    · exact ih (min x z) y (List.mem_cons_of_mem _ hmem)

theorem foldl_max_mem (x : ℝ) (xs : List ℝ) : xs.foldl max x ∈ x :: xs := by
  induction xs generalizing x with
  | nil => simp
  | cons y ys ih =>
    rw [List.foldl_cons]
    simp only [List.mem_cons]
    rcases List.mem_cons.1 (ih (max x y)) with h | h
    · rcases max_choice x y with hm | hm
      · exact Or.inl (h.trans hm)
      · exact Or.inr (Or.inl (h.trans hm))
    · exact Or.inr (Or.inr h)

theorem foldl_max_ge (x : ℝ) (xs : List ℝ) : ∀ y ∈ x :: xs, y ≤ xs.foldl max x := by
  induction xs generalizing x with
  | nil => simp
  | cons z zs ih =>
    intro y hy
    rw [List.foldl_cons]
    have hbase : max x z ≤ zs.foldl max (max x z) :=
      ih (max x z) (max x z) (List.mem_cons_self _ _)
    simp only [List.mem_cons] at hy
    rcases hy with heq | heq | hmem
    · rw [heq]; exact le_trans (le_max_left x z) hbase
    · rw [heq]; exact le_trans (le_max_right x z) hbase
    · exact ih (max x z) y (List.mem_cons_of_mem _ hmem)

theorem listMin_mem (l : List ℝ) (h : l ≠ []) : listMin l ∈ l := by
  match l with
  | [] => exact absurd rfl h
  | x :: xs => exact foldl_min_mem x xs

theorem listMin_le (l : List ℝ) : ∀ y ∈ l, listMin l ≤ y := by
  match l with
  | [] => simp
  | x :: xs => exact foldl_min_le x xs

theorem listMax_mem (l : List ℝ) (h : l ≠ []) : listMax l ∈ l := by
  match l with
  | [] => exact absurd rfl h
  | x :: xs => exact foldl_max_mem x xs

theorem listMax_ge (l : List ℝ) : ∀ y ∈ l, y ≤ listMax l := by
  match l with
  | [] => simp
  | x :: xs => exact foldl_max_ge x xs

/-! ### The scan of np.argmax keeps the first occurrence of the maximum -/

theorem argmaxAux_spec (xs : List ℝ) : ∀ (i best : Nat) (bv : ℝ),
    (argmaxAux xs i best bv = best ∧ ∀ k, k < xs.length → xs.getD k 0 ≤ bv) ∨
    (∃ k, k < xs.length ∧ argmaxAux xs i best bv = i + k ∧ bv < xs.getD k 0 ∧
      (∀ m, m < xs.length → xs.getD m 0 ≤ xs.getD k 0) ∧
      (∀ m, m < k → xs.getD m 0 < xs.getD k 0)) := by
  induction xs with
  | nil =>
    intro i best bv
    left
    exact ⟨rfl, by simp⟩
  | cons x xs ih =>
    intro i best bv
    by_cases hx : bv < x
    · rw [argmaxAux, if_pos hx]
      rcases ih (i + 1) i x with ⟨heq, hle⟩ | ⟨k, hk, heq, hlt, hmax, hfirst⟩
      · right
        refine ⟨0, by simp, by simpa using heq, by simpa using hx, ?_, ?_⟩
        · intro m hm
          match m with
          | 0 => simp
          | Nat.succ m' =>
            simp only [List.getD_cons_succ, List.getD_cons_zero]
            exact hle m' (by simpa using hm)
        · intro m hm
          exact absurd hm (Nat.not_lt_zero m)
      · right
        refine ⟨k + 1, by simpa using hk, by omega, ?_, ?_, ?_⟩
        · simpa using lt_trans hx hlt
        · intro m hm
          match m with
          | 0 =>
            simp only [List.getD_cons_succ, List.getD_cons_zero]
            exact le_of_lt hlt
          | Nat.succ m' =>
            simp only [List.getD_cons_succ]
            exact hmax m' (by simpa using hm)
        · intro m hm
          match m with
          | 0 =>
            simp only [List.getD_cons_succ, List.getD_cons_zero]
            exact hlt
          | Nat.succ m' =>
            simp only [List.getD_cons_succ]
            exact hfirst m' (by omega)
    · rw [argmaxAux, if_neg hx]
      rcases ih (i + 1) best bv with ⟨heq, hle⟩ | ⟨k, hk, heq, hlt, hmax, hfirst⟩
      · left
        refine ⟨heq, ?_⟩
        intro k hk
        match k with
        | 0 => simpa using le_of_not_lt hx
        | Nat.succ k' =>
          simp only [List.getD_cons_succ]
          exact hle k' (by simpa using hk)
      · right
        refine ⟨k + 1, by simpa using hk, by omega, by simpa using hlt, ?_, ?_⟩
        · intro m hm
          match m with
          | 0 =>
            simp only [List.getD_cons_succ, List.getD_cons_zero]
            exact le_of_lt (lt_of_le_of_lt (le_of_not_lt hx) hlt)
          | Nat.succ m' =>
            simp only [List.getD_cons_succ]
            exact hmax m' (by simpa using hm)
        · intro m hm
          match m with
          | 0 =>
            simp only [List.getD_cons_succ, List.getD_cons_zero]
            exact lt_of_le_of_lt (le_of_not_lt hx) hlt
          | Nat.succ m' =>
            simp only [List.getD_cons_succ]
            exact hfirst m' (by omega)

/-- What `npArgmax l = .ok i` says about `i`: it is in range, the value at
`i` is a maximum of the list, and every earlier entry is strictly below it
(first occurrence of the maximum). -/
theorem npArgmax_spec (l : List ℝ) (i : Nat) (h : npArgmax l = Except.ok i) :
    i < l.length ∧ (∀ m, m < l.length → l.getD m 0 ≤ l.getD i 0) ∧
      ∀ m, m < i → l.getD m 0 < l.getD i 0 := by
  match l with
  | [] => exact absurd h (by simp [npArgmax])
  | x :: xs =>
    have hi : i = argmaxAux xs 1 0 x := by
      have h2 : Except.ok (argmaxAux xs 1 0 x) = (Except.ok i : Except String Nat) := by
        simpa [npArgmax] using h
      exact (Except.ok.inj h2).symm
    rcases argmaxAux_spec xs 1 0 x with ⟨heq, hle⟩ | ⟨k, hk, heq, hlt, hmax, hfirst⟩
    · subst hi
      rw [heq]
      refine ⟨by simp, ?_, ?_⟩
      · intro m hm
        match m with
        | 0 => simp
        | Nat.succ m' =>
          simp only [List.getD_cons_succ, List.getD_cons_zero]
          exact hle m' (by simpa using hm)
      · intro m hm
        exact absurd hm (Nat.not_lt_zero m)
    · subst hi
      rw [heq]
      have hk1 : 1 + k = k + 1 := by omega
      rw [hk1]
      refine ⟨by simpa using hk, ?_, ?_⟩
      · intro m hm
        match m with
        | 0 =>
          simp only [List.getD_cons_succ, List.getD_cons_zero]
          exact le_of_lt hlt
        | Nat.succ m' =>
          simp only [List.getD_cons_succ]
          exact hmax m' (by simpa using hm)
      · intro m hm
        match m with
        | 0 =>
          simp only [List.getD_cons_succ, List.getD_cons_zero]
          exact hlt
        | Nat.succ m' =>
          simp only [List.getD_cons_succ]
          exact hfirst m' (by omega)

/-! ### Reading single statistics off the concatenated feature vector -/

theorem mean_features_getD (E : EmbeddingSeq) (j : Nat) (h : j < dimOf E) :
    (mean_features E).getD j 0 = colMean E j :=
  getD_range_map (fun j => colMean E j) (dimOf E) j h

theorem std_features_getD (E : EmbeddingSeq) (j : Nat) (h : j < dimOf E) :
    (std_features E).getD j 0 = Real.sqrt (colVar E j) :=
  getD_range_map (fun j => Real.sqrt (colVar E j)) (dimOf E) j h

theorem min_features_getD (E : EmbeddingSeq) (j : Nat) (h : j < dimOf E) :
    (min_features E).getD j 0 = listMin (column E j) :=
  getD_range_map (fun j => listMin (column E j)) (dimOf E) j h

theorem max_features_getD (E : EmbeddingSeq) (j : Nat) (h : j < dimOf E) :
    (max_features E).getD j 0 = listMax (column E j) :=
  getD_range_map (fun j => listMax (column E j)) (dimOf E) j h

/-- C1: for every waveform whose embedding sequence has T > 0 time steps
and dimension D, `preprocesar_audio` produces a vector of exactly 4 * D
entries, concatenated in the fixed order mean, standard deviation, minimum,
maximum, each a per-dimension statistic over the T axis; the standard
deviation is the square root of the population variance (divide by T, not
T - 1) and the minimum and maximum are the exact elementwise extrema. -/
theorem preprocesar_audio_feature_layout
    (env : AudioEnv) (d : Detector) (audio_path : String)
    (w iv : Waveform) (E : EmbeddingSeq) (D : Nat)
    (hw : env.loadAudio audio_path = Except.ok w)
    (hiv : d.processor w = Except.ok iv)
    (hE : d.model_hubert iv = Except.ok E)
    (hne : E ≠ [])
    (hD : ∀ r ∈ E, r.length = D) :
    ∃ v, preprocesar_audio env d audio_path = Except.ok v ∧
      v.length = 4 * D ∧
      ∀ j, j < D →
        v.getD j 0 = (column E j).sum / (E.length : ℝ) ∧
        v.getD (D + j) 0 =
          Real.sqrt
            (((column E j).map
                (fun x => (x - (column E j).sum / (E.length : ℝ)) ^ 2)).sum /
              (E.length : ℝ)) ∧
        (v.getD (2 * D + j) 0 ∈ column E j ∧
          ∀ y ∈ column E j, v.getD (2 * D + j) 0 ≤ y) ∧
        (v.getD (3 * D + j) 0 ∈ column E j ∧
          ∀ y ∈ column E j, y ≤ v.getD (3 * D + j) 0) := by
  obtain ⟨r, rs, rfl⟩ := List.exists_cons_of_ne_nil hne
  have hdim : dimOf (r :: rs) = D := by
    simpa [dimOf] using hD r (by simp)
  have hLm : (mean_features (r :: rs)).length = D := by
    simp [mean_features, hdim]
  have hLs : (std_features (r :: rs)).length = D := by
    simp [std_features, hdim]
  have hLmin : (min_features (r :: rs)).length = D := by
    simp [min_features, hdim]
  have hLmax : (max_features (r :: rs)).length = D := by
    simp [max_features, hdim]
  have hlen2 : (mean_features (r :: rs) ++ std_features (r :: rs)).length = 2 * D := by
    rw [List.length_append, hLm, hLs]; omega
  have hlen3 :
      ((mean_features (r :: rs) ++ std_features (r :: rs)) ++
        min_features (r :: rs)).length = 3 * D := by
    rw [List.length_append, hlen2, hLmin]; omega
  have hok : preprocesar_audio env d audio_path =
      Except.ok (aggregateStats (r :: rs)) := by
    simp [preprocesar_audio, hw, hiv, hE]
  refine ⟨aggregateStats (r :: rs), hok, ?_, ?_⟩
  · rw [aggregateStats, List.length_append, List.length_append,
      List.length_append, hLm, hLs, hLmin, hLmax]
    omega
  · intro j hj
    have h1 : (aggregateStats (r :: rs)).getD j 0 = colMean (r :: rs) j := by
      rw [aggregateStats,
        List.getD_append _ _ _ _ (by rw [hlen3]; omega),
        List.getD_append _ _ _ _ (by rw [hlen2]; omega),
        List.getD_append _ _ _ _ (by rw [hLm]; omega)]
      exact mean_features_getD _ _ (by rw [hdim]; omega)
    have h2 : (aggregateStats (r :: rs)).getD (D + j) 0 =
        Real.sqrt (colVar (r :: rs) j) := by
      rw [aggregateStats,
        List.getD_append _ _ _ _ (by rw [hlen3]; omega),
        List.getD_append _ _ _ _ (by rw [hlen2]; omega),
        List.getD_append_right _ _ _ _ (by rw [hLm]; omega),
        hLm, show D + j - D = j from by omega]
      exact std_features_getD _ _ (by rw [hdim]; omega)
    have h3 : (aggregateStats (r :: rs)).getD (2 * D + j) 0 =
        listMin (column (r :: rs) j) := by
      rw [aggregateStats,
        List.getD_append _ _ _ _ (by rw [hlen3]; omega),
        List.getD_append_right _ _ _ _ (by rw [hlen2]; omega),
        hlen2, show 2 * D + j - 2 * D = j from by omega]
      exact min_features_getD _ _ (by rw [hdim]; omega)
    have h4 : (aggregateStats (r :: rs)).getD (3 * D + j) 0 =
        listMax (column (r :: rs) j) := by
      rw [aggregateStats,
        List.getD_append_right _ _ _ _ (by rw [hlen3]; omega),
        hlen3, show 3 * D + j - 3 * D = j from by omega]
      exact max_features_getD _ _ (by rw [hdim]; omega)
    refine ⟨?_, ?_, ⟨?_, ?_⟩, ⟨?_, ?_⟩⟩
    · rw [h1]; simp [colMean]
    · rw [h2]; simp [colVar, colMean]
    · rw [h3]; exact listMin_mem _ (by simp [column])
    · intro y hy; rw [h3]; exact listMin_le _ y hy
    · rw [h4]; exact listMax_mem _ (by simp [column])
    · intro y hy; rw [h4]; exact listMax_ge _ y hy

theorem preprocesar_audio_feature_layout_witness :
    ∃ v, preprocesar_audio envOk detTwoSteps "clip.wav" = Except.ok v ∧
      v.length = 4 * 1 ∧
      ∀ j, j < 1 →
        v.getD j 0 =
          (column [[1], [3]] j).sum / (([[1], [3]] : EmbeddingSeq).length : ℝ) ∧
        v.getD (1 + j) 0 =
          Real.sqrt
            (((column [[1], [3]] j).map
                (fun x =>
                  (x - (column [[1], [3]] j).sum /
                    (([[1], [3]] : EmbeddingSeq).length : ℝ)) ^ 2)).sum /
              (([[1], [3]] : EmbeddingSeq).length : ℝ)) ∧
        (v.getD (2 * 1 + j) 0 ∈ column [[1], [3]] j ∧
          ∀ y ∈ column [[1], [3]] j, v.getD (2 * 1 + j) 0 ≤ y) ∧
        (v.getD (3 * 1 + j) 0 ∈ column [[1], [3]] j ∧
          ∀ y ∈ column [[1], [3]] j, y ≤ v.getD (3 * 1 + j) 0) :=
  preprocesar_audio_feature_layout envOk detTwoSteps "clip.wav" [0] [0]
    [[1], [3]] 1 rfl rfl rfl (by simp) (by simp)

/-! ### Inversion of a successful pipeline run -/

theorem pipeline_ok_inv (env : AudioEnv) (d : Detector) (audio_path : String)
    (label : String) (conf : ℝ) (m : List (Nat × String)) (dist : List ℝ)
    (h : pipeline env d audio_path = Except.ok (label, conf, m, dist)) :
    ∃ clase, npArgmax dist = Except.ok clase ∧
      d.id_to_label.lookup clase = some label ∧
      m = d.id_to_label ∧ conf = dist.getD clase 0 := by
  unfold pipeline at h
  cases hcs : classifyStage env d audio_path with
  | error e => simp only [hcs] at h; exact Except.noConfusion h
  | ok predicciones =>
    simp only [hcs] at h
    cases ha : npArgmax predicciones with
    | error e => simp only [ha] at h; exact Except.noConfusion h
    | ok clase =>
      simp only [ha] at h
      cases hl : d.id_to_label.lookup clase with
      | none => simp only [hl] at h; exact Except.noConfusion h
      | some emocion =>
        simp only [hl, Except.ok.injEq, Prod.mk.injEq] at h
        obtain ⟨h1, h2, h3, h4⟩ := h
        subst h1
        subst h4
        exact ⟨clase, ha, hl, h3.symm, h2.symm⟩

/-- C2: for every audio path, `predecir_emocion` is a total function of its
inputs: it either passes through the successful pipeline result (whose label
map component is the detector's own map) or, when any pipeline stage fails,
returns the in-band error variant carrying the message, a confidence of 0,
an empty label map, and an empty distribution — the failure is never
propagated. -/
theorem predecir_emocion_never_raises (env : AudioEnv) (d : Detector)
    (audio_path : String) :
    (∃ label conf dist,
        pipeline env d audio_path = Except.ok (label, conf, d.id_to_label, dist) ∧
        (predecir_emocion env d audio_path).1 = (label, conf, d.id_to_label, dist)) ∨
    (∃ msg, pipeline env d audio_path = Except.error msg ∧
        (predecir_emocion env d audio_path).1 =
          ("ERROR: " ++ msg, 0, ([] : List (Nat × String)), ([] : List ℝ))) := by
  cases hp : pipeline env d audio_path with
  | ok r =>
    left
    obtain ⟨label, conf, m, dist⟩ := r
    obtain ⟨clase, ha, hl, hm, hc⟩ :=
      pipeline_ok_inv env d audio_path label conf m dist hp
    subst hm
    exact ⟨label, conf, dist, rfl, by simp [predecir_emocion, hp]⟩
  | error e =>
    right
    exact ⟨e, rfl, by simp [predecir_emocion, hp]⟩

/-- C3: on a successful prediction the resolved class index is the argmax
of the classifier's distribution with ties broken to the lowest index, the
returned label is the label map's entry at that index, the returned map is
the detector's, and the returned confidence is the distribution's value at
that index. -/
theorem predecir_resolved_argmax (env : AudioEnv) (d : Detector)
    (audio_path : String) (label : String) (conf : ℝ)
    (m : List (Nat × String)) (dist : List ℝ)
    (h : pipeline env d audio_path = Except.ok (label, conf, m, dist)) :
    ∃ i, i < dist.length ∧
      (∀ j, j < dist.length → dist.getD j 0 ≤ dist.getD i 0) ∧
      (∀ j, j < i → dist.getD j 0 < dist.getD i 0) ∧
      d.id_to_label.lookup i = some label ∧
      m = d.id_to_label ∧
      conf = dist.getD i 0 := by
  obtain ⟨clase, ha, hl, hm, hc⟩ :=
    pipeline_ok_inv env d audio_path label conf m dist h
  obtain ⟨hlt, hmax, hfirst⟩ := npArgmax_spec dist clase ha
  exact ⟨clase, hlt, hmax, hfirst, hl, hm, hc⟩

/-- C8: the loaded scaler's transform is deterministic across calls: a call
leaves the detector state unchanged, and a second separate call on the same
input vector returns the identical output. -/
theorem scaler_transform_deterministic (d : Detector) (v : List ℝ) :
    (scaler_transform_call d v).1 =
      (scaler_transform_call (scaler_transform_call d v).2 v).1 ∧
    (scaler_transform_call d v).2 = d :=
  ⟨rfl, rfl⟩

/-- C9: a call to `predecir_emocion` leaves every loaded component of the
detector unchanged: the post-call state is the pre-call state, field by
field (embedding processor, HuBERT model, classifier, scaler arrays, label
map). -/
theorem predecir_emocion_frame (env : AudioEnv) (d : Detector)
    (audio_path : String) :
    (predecir_emocion env d audio_path).2 = d ∧
    ((predecir_emocion env d audio_path).2).processor = d.processor ∧
    ((predecir_emocion env d audio_path).2).model_hubert = d.model_hubert ∧
    ((predecir_emocion env d audio_path).2).modelo_cargado = d.modelo_cargado ∧
    ((predecir_emocion env d audio_path).2).scaler_mean = d.scaler_mean ∧
    ((predecir_emocion env d audio_path).2).scaler_scale = d.scaler_scale ∧
    ((predecir_emocion env d audio_path).2).id_to_label = d.id_to_label :=
  ⟨rfl, rfl, rfl, rfl, rfl, rfl, rfl⟩

/-- C10: the error variant of `predecir_emocion` carries no separate
discriminant: on any failing input the failure is signalled in-band, the
first tuple component being the string "ERROR: " followed by the exception
message, with confidence 0, an empty map and an empty distribution filling
the remaining slots; in particular the returned label always extends the
prefix "ERROR: ". -/
theorem predecir_error_in_band (env : AudioEnv) (d : Detector)
    (audio_path : String) (msg : String)
    (h : pipeline env d audio_path = Except.error msg) :
    (predecir_emocion env d audio_path).1 =
      ("ERROR: " ++ msg, 0, ([] : List (Nat × String)), ([] : List ℝ)) ∧
    ∃ rest, ((predecir_emocion env d audio_path).1).1 = "ERROR: " ++ rest := by
  refine ⟨by simp [predecir_emocion, h], ⟨msg, by simp [predecir_emocion, h]⟩⟩

theorem predecir_error_in_band_witness :
    (predecir_emocion envFail detTwoSteps "corrupt.bin").1 =
      ("ERROR: " ++ "could not decode audio", 0,
        ([] : List (Nat × String)), ([] : List ℝ)) ∧
    ∃ rest, ((predecir_emocion envFail detTwoSteps "corrupt.bin").1).1 =
      "ERROR: " ++ rest :=
  predecir_error_in_band envFail detTwoSteps "corrupt.bin"
    "could not decode audio" rfl

/-! ### Evaluating the pipeline on the concrete fixtures -/

theorem aggStats_single : aggregateStats [[0]] = [0, 0, 0, 0] := by
  norm_num [aggregateStats, mean_features, std_features, min_features,
    max_features, dimOf, column, colMean, colVar, listMin, listMax,
    List.range_succ, Real.sqrt_zero]

theorem scalerTransform_zeros (d : Detector)
    (h1 : d.scaler_mean = [0, 0, 0, 0]) (h2 : d.scaler_scale = [1, 1, 1, 1]) :
    scalerTransform d [0, 0, 0, 0] = Except.ok [0, 0, 0, 0] := by
  norm_num [scalerTransform, h1, h2, List.zip]

theorem argmax_tie : npArgmax [(1 : ℝ) / 2, 1 / 2, 0] = Except.ok 0 := by
  norm_num [npArgmax, argmaxAux]

theorem classify_detTie :
    classifyStage envOk detTie "clip.wav" = Except.ok [1 / 2, 1 / 2, 0] := by
  simp only [classifyStage,
    show preprocesar_audio envOk detTie "clip.wav" =
      Except.ok (aggregateStats [[0]]) from rfl,
    aggStats_single, scalerTransform_zeros detTie rfl rfl]
  rfl

theorem pipeline_detTie :
    pipeline envOk detTie "clip.wav" =
      Except.ok ("Angry", (1 : ℝ) / 2,
        [(0, "Angry"), (1, "Sad"), (2, "Happy")], [1 / 2, 1 / 2, 0]) := by
  simp only [pipeline, classify_detTie, argmax_tie]
  rfl

theorem predecir_resolved_argmax_witness :
    ∃ i, i < ([(1 : ℝ) / 2, 1 / 2, 0] : List ℝ).length ∧
      (∀ j, j < ([(1 : ℝ) / 2, 1 / 2, 0] : List ℝ).length →
        ([(1 : ℝ) / 2, 1 / 2, 0] : List ℝ).getD j 0 ≤
          ([(1 : ℝ) / 2, 1 / 2, 0] : List ℝ).getD i 0) ∧
      (∀ j, j < i →
        ([(1 : ℝ) / 2, 1 / 2, 0] : List ℝ).getD j 0 <
          ([(1 : ℝ) / 2, 1 / 2, 0] : List ℝ).getD i 0) ∧
      detTie.id_to_label.lookup i = some "Angry" ∧
      ([(0, "Angry"), (1, "Sad"), (2, "Happy")] : List (Nat × String)) =
        detTie.id_to_label ∧
      (1 : ℝ) / 2 = ([(1 : ℝ) / 2, 1 / 2, 0] : List ℝ).getD i 0 :=
  predecir_resolved_argmax envOk detTie "clip.wav" "Angry" (1 / 2)
    [(0, "Angry"), (1, "Sad"), (2, "Happy")] [1 / 2, 1 / 2, 0] pipeline_detTie

/-! ### The silence gate -/

theorem rms_all_zero (g : List ℝ) (hz : ∀ x ∈ g, x = 0) : rms g = 0 := by
  have hsum : (g.map (fun x => x ^ 2)).sum = 0 := by
    apply List.sum_eq_zero
    intro y hy
    obtain ⟨x, hx, rfl⟩ := List.mem_map.1 hy
    rw [hz x hx]
    norm_num
  rw [rms, hsum, zero_div, Real.sqrt_zero]

/-- C4: the silence gate computes the RMS over all captured samples as
`sqrt(mean(x^2))` and rejects the signal exactly when that RMS is strictly
below the 0.03 threshold; a signal whose RMS equals the threshold exactly is
not rejected, and an all-zero signal is rejected. -/
theorem silence_gate_strict (g : List ℝ) :
    (isSilent g ↔
      Real.sqrt ((g.map (fun x => x ^ 2)).sum / (g.length : ℝ)) < 3 / 100) ∧
    (rms g = 3 / 100 → ¬ isSilent g) ∧
    (g ≠ [] → (∀ x ∈ g, x = 0) → isSilent g) := by
  refine ⟨Iff.rfl, ?_, ?_⟩
  · intro h hs
    have hs2 : rms g < 3 / 100 := hs
    rw [h] at hs2
    exact lt_irrefl _ hs2
  · intro hne hz
    show rms g < UMBRAL_SILENCIO
    rw [rms_all_zero g hz, UMBRAL_SILENCIO]
    norm_num

theorem rms_single_threshold : rms [(3 : ℝ) / 100] = 3 / 100 := by
  have hval :
      (([(3 : ℝ) / 100].map (fun x => x ^ 2)).sum /
        (([(3 : ℝ) / 100] : List ℝ).length : ℝ)) = ((3 : ℝ) / 100) ^ 2 := by
    norm_num
  rw [rms, hval, Real.sqrt_sq (by norm_num : (0 : ℝ) ≤ 3 / 100)]

theorem silence_gate_strict_witness :
    ¬ isSilent [(3 : ℝ) / 100] ∧ isSilent [0] :=
  ⟨(silence_gate_strict [(3 : ℝ) / 100]).2.1 rms_single_threshold,
   (silence_gate_strict [0]).2.2 (by simp) (by simp)⟩

/-! ### The label map is not validated at load time -/

theorem classify_detNoLabels :
    classifyStage envOk detNoLabels "clip.wav" = Except.ok [1] := by
  simp only [classifyStage,
    show preprocesar_audio envOk detNoLabels "clip.wav" =
      Except.ok (aggregateStats [[0]]) from rfl,
    aggStats_single, scalerTransform_zeros detNoLabels rfl rfl]
  rfl

theorem pipeline_detNoLabels :
    pipeline envOk detNoLabels "clip.wav" = Except.error (toString 0) := by
  simp only [pipeline, classify_detNoLabels]
  rfl

/-- C5 counterexample: a load whose label JSON covers none of the
classifier's output indices still succeeds — `load_components` performs no
completeness validation — and the missing index 0 surfaces only at
prediction time, as a KeyError caught and returned in-band by
`predecir_emocion`, not as a load-time error. -/
theorem label_map_not_validated_at_load :
    load_components leNoLabels = Except.ok detNoLabels ∧
    detNoLabels.id_to_label.lookup 0 = none ∧
    detNoLabels.modelo_cargado [0, 0, 0, 0] = Except.ok [1] ∧
    (predecir_emocion envOk detNoLabels "clip.wav").1 =
      ("ERROR: " ++ toString 0, 0, ([] : List (Nat × String)), ([] : List ℝ)) := by
  refine ⟨rfl, rfl, rfl, ?_⟩
  simp [predecir_emocion, pipeline_detNoLabels]

/-- C5 (amended): the label map is built once at load time by inverting the
persisted JSON label-to-id mapping, but it is not validated against the
classifier's output indices: a load with a missing index still succeeds,
and the missing index surfaces at prediction time as a KeyError that
`predecir_emocion` catches and returns as the in-band error variant — a
lazy lookup failure at prediction time, not a load-time error. -/
theorem label_map_lazy_lookup (le : LoadEnv) (m : List (String × Nat))
    (d : Detector)
    (hjson : le.load_label_json = Except.ok m)
    (hload : load_components le = Except.ok d) :
    d.id_to_label = invertLabelMap m ∧
    ∀ (env : AudioEnv) (audio_path : String) (dist : List ℝ) (i : Nat),
      classifyStage env d audio_path = Except.ok dist →
      npArgmax dist = Except.ok i →
      d.id_to_label.lookup i = none →
      (predecir_emocion env d audio_path).1 =
        ("ERROR: " ++ toString i, 0, ([] : List (Nat × String)), ([] : List ℝ)) := by
  constructor
  · unfold load_components at hload
    cases hp : le.load_processor with
    | error e => simp only [hp] at hload; exact Except.noConfusion hload
    | ok processor =>
      simp only [hp] at hload
      cases hh : le.load_hubert with
      | error e => simp only [hh] at hload; exact Except.noConfusion hload
      | ok model_hubert =>
        simp only [hh] at hload
        cases hmo : le.load_modelo with
        | error e => simp only [hmo] at hload; exact Except.noConfusion hload
        | ok modelo =>
          simp only [hmo] at hload
          cases hsc : le.load_scaler with
          | error e => simp only [hsc] at hload; exact Except.noConfusion hload
          | ok scaler =>
            simp only [hsc] at hload
            cases hlj : le.load_label_json with
            | error e => simp only [hlj] at hload; exact Except.noConfusion hload
            | ok label_to_id =>
              simp only [hlj] at hload
              have hm : label_to_id = m := by
                rw [hlj] at hjson
                exact Except.ok.inj hjson
              subst hm
              have hd := Except.ok.inj hload
              rw [← hd]
  · intro env audio_path dist i hcs ha hl
    have hpipe : pipeline env d audio_path = Except.error (toString i) := by
      unfold pipeline
      simp only [hcs, ha, hl]
    simp [predecir_emocion, hpipe]

theorem label_map_lazy_lookup_witness :
    detNoLabels.id_to_label = invertLabelMap [] ∧
    (predecir_emocion envOk detNoLabels "clip.wav").1 =
      ("ERROR: " ++ toString 0, 0, ([] : List (Nat × String)), ([] : List ℝ)) :=
  ⟨(label_map_lazy_lookup leNoLabels [] detNoLabels rfl rfl).1,
   (label_map_lazy_lookup leNoLabels [] detNoLabels rfl rfl).2 envOk "clip.wav"
     [1] 0 classify_detNoLabels rfl rfl⟩

/-! ### The live-capture flow -/

theorem isSilent_zero_single : isSilent [0] := by
  show rms [0] < UMBRAL_SILENCIO
  rw [rms_all_zero [0] (by simp), UMBRAL_SILENCIO]
  norm_num

theorem not_silent_one : ¬ isSilent [1] := by
  have h : rms [1] = 1 := by
    have hval :
        (([(1 : ℝ)].map (fun x => x ^ 2)).sum /
          (([(1 : ℝ)] : List ℝ).length : ℝ)) = 1 := by
      norm_num
    rw [rms, hval, Real.sqrt_one]
  show ¬ rms [1] < UMBRAL_SILENCIO
  rw [h, UMBRAL_SILENCIO]
  norm_num

/-- C6: for a live recording whose samples are all zero the silence gate
fires: the inference engine is never invoked, the flow displays the silence
sentinel (with RMS 0), and no prediction result — in particular no error
result — ever reaches the caller. -/
theorem silent_recording_skips_inference (env : AudioEnv) (d : Detector)
    (grabacion : List ℝ) (tr : List UiEvent)
    (hne : grabacion ≠ []) (hz : ∀ x ∈ grabacion, x = 0)
    (hrun : ToggleRun env d grabacion tr) :
    UiEvent.invokeInference ∉ tr ∧
    UiEvent.displaySilence (rms grabacion) ∈ tr ∧
    rms grabacion = 0 ∧
    ∀ r, UiEvent.displayResult r ∉ tr := by
  have h0 : rms grabacion = 0 := rms_all_zero grabacion hz
  have hsil : isSilent grabacion := by
    show rms grabacion < UMBRAL_SILENCIO
    rw [h0, UMBRAL_SILENCIO]
    norm_num
  cases hrun with
  | silent hs =>
    refine ⟨?_, by simp, h0, ?_⟩
    · intro hmem
      simp at hmem
    · intro r hmem
      simp at hmem
  | voiced hv => exact absurd hsil hv

theorem silent_recording_skips_inference_witness :
    UiEvent.invokeInference ∉
      ([UiEvent.writeTemp, UiEvent.removeTemp,
        UiEvent.displaySilence (rms [0])] : List UiEvent) ∧
    UiEvent.displaySilence (rms [0]) ∈
      ([UiEvent.writeTemp, UiEvent.removeTemp,
        UiEvent.displaySilence (rms [0])] : List UiEvent) ∧
    rms [0] = 0 ∧
    ∀ r, UiEvent.displayResult r ∉
      ([UiEvent.writeTemp, UiEvent.removeTemp,
        UiEvent.displaySilence (rms [0])] : List UiEvent) :=
  silent_recording_skips_inference envOk detTwoSteps [0] _
    (by simp) (by simp) (ToggleRun.silent isSilent_zero_single)

/-- C7: on every path of the live-capture flow — the silence-gate rejection
path and the inference path, whether the prediction succeeded or returned
the error variant — the temporary WAV file written during capture has been
removed by the time the trace finishes. -/
theorem temp_file_deleted_every_path (env : AudioEnv) (d : Detector)
    (grabacion : List ℝ) (tr : List UiEvent)
    (hrun : ToggleRun env d grabacion tr) :
    tempExistsAfter tr = false ∧
    UiEvent.writeTemp ∈ tr ∧ UiEvent.removeTemp ∈ tr := by
  cases hrun with
  | silent hs => exact ⟨rfl, by simp, by simp⟩
  | voiced hv => exact ⟨rfl, by simp [analyze_audio_file], by simp [analyze_audio_file]⟩

theorem temp_file_deleted_every_path_witness :
    tempExistsAfter
      (UiEvent.writeTemp :: analyze_audio_file envOk detTwoSteps tempVivoPath true)
        = false ∧
    UiEvent.writeTemp ∈
      UiEvent.writeTemp :: analyze_audio_file envOk detTwoSteps tempVivoPath true ∧
    UiEvent.removeTemp ∈
      UiEvent.writeTemp :: analyze_audio_file envOk detTwoSteps tempVivoPath true :=
  temp_file_deleted_every_path envOk detTwoSteps [1] _
    (ToggleRun.voiced not_silent_one)

end
